import Mathlib

/-!
Shallow embedding of the `kvs` log-structured key/value store
(`src/kv.rs`, `src/kvwriter.rs`, `src/kvreader.rs`, `src/error.rs`).

Modelling conventions:
* Segment files are sequences of characters (`List Char`); offsets and lengths
  are counted in list elements, which coincides with byte counts for the ASCII
  content used in every concrete scenario below.
* The file system visible to one store is the association list
  `files : List (Nat × List Char)` from generation number to file contents
  (the directory holds files named `<G>.db`).  The store's `path` field is
  dropped: all operations act inside the one directory.
* `KvReader` seeks to an absolute position before every read
  (`KvStore::get` and `KvStore::compact` both seek first), so reader cursor
  positions never carry information across operations; the `readers` map is
  therefore embedded as its key set `List Nat`.  A read through a reader is
  random access into the file contents.
* `BufWriter`/`flush`: every mutating operation flushes before any read of the
  written data can happen, so writes append directly to the file contents.
  The file is opened with `O_APPEND`, hence bytes always land at the end of
  the file, independent of the `pos` field kept by `KvWriter`.
* `serde_json` is embedded by an encoder/decoder for the canonical wire form
  `x7b"Set":["k","v"]x7d` / `x7b"Remove":"k"x7d` (with serde_json's string
  escaping); a failure of the canonical decoder models a serde error.
* The panicking branches (`.expect("No reader for generation")`) are embedded
  as `Option`: `none` is reached exactly when the source would panic.
* `HashMap` iteration order is unspecified in Rust; the embedding uses
  association lists in insertion order, which realises one admissible order.
* `u64` values are embedded as `Nat`; the source's `u64` subtractions
  (`writer.pos - length`, `next_offset - offset`) are protocol-non-negative
  and are embedded as truncated `Nat` subtraction.
-/

set_option linter.unusedVariables false

namespace Kvs

/-- Error taxonomy of the store, from `src/error.rs` (payloads elided;
`Serde` stands for any serialization/deserialization error). -/
inductive KvError
  | Io
  | Serde
  | KeyNotFound
  | UnexpectedAction
  | PatternError
deriving DecidableEq

/-- Commands persisted in the log: `enum KvAction` in `src/kv.rs`. -/
inductive KvAction
  | Set (key value : String)
  | Remove (key : String)
deriving DecidableEq

/-- Compaction threshold, `const THRESHOLD: u64 = 1024 * 1024` in `src/kv.rs`. -/
def THRESHOLD : Nat := 1024 * 1024

/-! ### serde_json codec for `KvAction` (canonical wire form) -/

/-- Lowercase hexadecimal digit, as in serde_json's escape table. -/
def hexDigit (n : Nat) : Char :=
  if n < 10 then Char.ofNat (48 + n) else Char.ofNat (87 + n)

/-- JSON escaping of one character, following serde_json: quote and backslash
escaped, control characters as the short escapes or as a hex escape. -/
def escapeChar (c : Char) : List Char :=
  if c = '"' then ['\\', '"']
  else if c = '\\' then ['\\', '\\']
  else if c = Char.ofNat 8 then ['\\', 'b']
  else if c = Char.ofNat 9 then ['\\', 't']
  else if c = Char.ofNat 10 then ['\\', 'n']
  else if c = Char.ofNat 12 then ['\\', 'f']
  else if c = Char.ofNat 13 then ['\\', 'r']
  else if c.toNat < 32 then
    ['\\', 'u', '0', '0', hexDigit (c.toNat / 16), hexDigit (c.toNat % 16)]
  else [c]

/-- JSON string literal for `s`: quote, escaped characters, quote. -/
def encodeJsonString (s : String) : List Char :=
  '"' :: (s.data.map escapeChar).flatten ++ ['"']

/-- serde_json encoding of one `KvAction`, the externally tagged form
`x7b"Set":[key,value]x7d` resp. `x7b"Remove":keyx7d`. -/
def encodeAction : KvAction → List Char
  | .Set k v =>
    '{' :: encodeJsonString "Set" ++ [':', '['] ++ encodeJsonString k ++ [','] ++
      encodeJsonString v ++ [']', '}']
  | .Remove k =>
    '{' :: encodeJsonString "Remove" ++ [':'] ++ encodeJsonString k ++ ['}']

/-- Value of one hexadecimal digit character. -/
def hexVal (c : Char) : Option Nat :=
  if 48 ≤ c.toNat ∧ c.toNat ≤ 57 then some (c.toNat - 48)
  else if 97 ≤ c.toNat ∧ c.toNat ≤ 102 then some (c.toNat - 87)
  else if 65 ≤ c.toNat ∧ c.toNat ≤ 70 then some (c.toNat - 55)
  else none

/-- Inverse of the one-character JSON escapes. -/
def simpleUnescape (c : Char) : Option Char :=
  if c = '"' then some '"'
  else if c = '\\' then some '\\'
  else if c = '/' then some '/'
  else if c = 'b' then some (Char.ofNat 8)
  else if c = 't' then some (Char.ofNat 9)
  else if c = 'n' then some (Char.ofNat 10)
  else if c = 'f' then some (Char.ofNat 12)
  else if c = 'r' then some (Char.ofNat 13)
  else none

/-- Parse the body of a JSON string literal (after the opening quote) up to and
including the closing quote; returns the decoded characters and the rest. -/
def parseJsonStringBody : List Char → Option (List Char × List Char)
  | [] => none
  | '"' :: rest => some ([], rest)
  | '\\' :: 'u' :: h1 :: h2 :: h3 :: h4 :: rest =>
    match hexVal h1, hexVal h2, hexVal h3, hexVal h4 with
    | some a, some b, some c, some d =>
      match parseJsonStringBody rest with
      | some (s, r) => some (Char.ofNat (((a * 16 + b) * 16 + c) * 16 + d) :: s, r)
      | none => none
    | _, _, _, _ => none
  | '\\' :: e :: rest =>
    match simpleUnescape e with
    | some c =>
      match parseJsonStringBody rest with
      | some (s, r) => some (c :: s, r)
      | none => none
    | none => none
  | c :: rest =>
    match parseJsonStringBody rest with
    | some (s, r) => some (c :: s, r)
    | none => none

/-- Decode one `KvAction` from the head of the input (the canonical wire form
emitted by `encodeAction`); returns the action and the unconsumed rest.
`none` models a serde_json decode error. -/
def decodeOne (l : List Char) : Option (KvAction × List Char) :=
  match l with
  | '{' :: '"' :: r =>
    match parseJsonStringBody r with
    | none => none
    | some (tag, r1) =>
      if tag = "Set".data then
        match r1 with
        | ':' :: '[' :: '"' :: r2 =>
          match parseJsonStringBody r2 with
          | none => none
          | some (k, r3) =>
            match r3 with
            | ',' :: '"' :: r4 =>
              match parseJsonStringBody r4 with
              | none => none
              | some (v, r5) =>
                match r5 with
                | ']' :: '}' :: r6 => some (KvAction.Set ⟨k⟩ ⟨v⟩, r6)
                | _ => none
            | _ => none
        | _ => none
      else if tag = "Remove".data then
        match r1 with
        | ':' :: '"' :: r2 =>
          match parseJsonStringBody r2 with
          | none => none
          | some (k, r3) =>
            match r3 with
            | '}' :: r4 => some (KvAction.Remove ⟨k⟩, r4)
            | _ => none
        | _ => none
      else none
  | _ => none

/-- `serde_json::from_reader` over a `take`-limited reader: decode one value
and require the input to be fully consumed (trailing bytes are an error). -/
def decodeExact (l : List Char) : Except KvError KvAction :=
  match decodeOne l with
  | some (a, []) => .ok a
  | _ => .error .Serde

/-! ### Segment writer (`src/kvwriter.rs`) -/

/-- The buffered append-only writer; only its `pos` field carries state here
(the underlying file lives in the store's `files` map). -/
structure KvWriter where
  pos : Nat
deriving DecidableEq

/-- `KvWriter::new`: the file is opened with create+write+append and `pos` is
initialised from `file.seek(SeekFrom::Current(0))`.  A freshly opened
descriptor has offset 0 — `O_APPEND` repositions at each write, not at open —
so `pos` is 0 regardless of `fileLen`, the current size of the file at the
path. -/
def KvWriter.new (fileLen : Nat) : KvWriter := ⟨0⟩

/-- The `Write` impl: `pos` advances by exactly the number of elements
written. -/
def KvWriter.write (w : KvWriter) (bytes : List Char) : KvWriter :=
  ⟨w.pos + bytes.length⟩

/-! ### Directory, index and store state (`src/kv.rs`) -/

/-- `struct KvIndexRecord`. -/
structure KvIndexRecord where
  generation : Nat
  offset : Nat
  length : Nat
deriving DecidableEq

/-- `HashMap` lookup on the association-list index (keys are unique in every
reachable state; lookup returns the first binding). -/
def idxLookup (l : List (String × KvIndexRecord)) (k : String) : Option KvIndexRecord :=
  (l.find? (fun p => p.1 == k)).map Prod.snd

/-- `HashMap::insert`: replace any binding of `k` and bind `k` to `r`.  The
new binding is placed last, fixing one admissible iteration order. -/
def idxInsert (l : List (String × KvIndexRecord)) (k : String) (r : KvIndexRecord) :
    List (String × KvIndexRecord) :=
  l.filter (fun p => !(p.1 == k)) ++ [(k, r)]

/-- `HashMap::remove`: drop the binding of `k`. -/
def idxErase (l : List (String × KvIndexRecord)) (k : String) :
    List (String × KvIndexRecord) :=
  l.filter (fun p => !(p.1 == k))

/-- `HashMap::insert` on the readers map, embedded as its key set. -/
def readersInsert (l : List Nat) (g : Nat) : List Nat :=
  if g ∈ l then l else g :: l

/-- Contents of the segment file of generation `g` (a reader's view; empty if
the file does not exist). -/
def fsRead (files : List (Nat × List Char)) (g : Nat) : List Char :=
  match files.find? (fun p => p.1 == g) with
  | some p => p.2
  | none => []

/-- `O_APPEND` write: the bytes land at the end of generation `g`'s file. -/
def fsAppend (files : List (Nat × List Char)) (g : Nat) (bytes : List Char) :
    List (Nat × List Char) :=
  files.map (fun p => if p.1 == g then (p.1, p.2 ++ bytes) else p)

/-- `OpenOptions::create(true)`: ensure generation `g`'s file exists. -/
def fsCreate (files : List (Nat × List Char)) (g : Nat) : List (Nat × List Char) :=
  match files.find? (fun p => p.1 == g) with
  | some _ => files
  | none => files ++ [(g, [])]

/-- `struct KvStore` (the `path` field is dropped: all files of the one
directory are in `files`). -/
structure KvStore where
  generation : Nat
  index : List (String × KvIndexRecord)
  writer : KvWriter
  readers : List Nat
  files : List (Nat × List Char)
  compactable : Nat
deriving DecidableEq

/-! ### Store operations -/

/-- `KvStore::get`.  `none` models the `.expect("No reader for generation")`
panicking branch; otherwise the record's segment is read at
`[offset, offset+length)` and the slice decoded. -/
def KvStore.get (s : KvStore) (key : String) : Option (Except KvError (Option String)) :=
  match idxLookup s.index key with
  | none => some (.ok none)
  | some r =>
    if r.generation ∈ s.readers then
      let slice := ((fsRead s.files r.generation).drop r.offset).take r.length
      match decodeExact slice with
      | .ok (.Set _ v) => some (.ok (some v))
      | .ok (.Remove _) => some (.error .UnexpectedAction)
      | .error e => some (.error e)
    else none

/-- `KvStore::remove`.  Guarded by `contains_key`; on a present key the
`Remove` command is appended and flushed, the binding dropped and its length
added to `compactable` (note: the length of the `Remove` command itself is
not added on this path). -/
def KvStore.remove (s : KvStore) (key : String) : Except KvError Unit × KvStore :=
  match idxLookup s.index key with
  | some outdated =>
    let bytes := encodeAction (.Remove key)
    let files' := fsAppend s.files s.generation bytes
    let w' := s.writer.write bytes
    (.ok (), ⟨s.generation, idxErase s.index key, w', s.readers, files',
      s.compactable + outdated.length⟩)
  | none => (.error .KeyNotFound, s)

/-- The per-entry loop of `KvStore::compact`.  For each record: look up the
reader of `rec.generation` (`none` models the `.expect` panicking there),
`seek(SeekFrom::Start(offset))`, then `reader.take(*offset)` — whose result
is immediately discarded, so it does not bound anything — and
`io::copy(&mut reader, &mut writer)`, which copies from the current position
(`offset`) to the end of the file.  The entry is updated in place to
`(new_gen, writer.pos - length, length)`. -/
def compactLoop :
    List (String × KvIndexRecord) → List (Nat × List Char) → Nat → KvWriter → List Nat →
      Option (List (String × KvIndexRecord) × List (Nat × List Char) × KvWriter)
  | [], files, _, w, _ => some ([], files, w)
  | (k, r) :: rest, files, newGen, w, rdrs =>
    if r.generation ∈ rdrs then
      let copied := (fsRead files r.generation).drop r.offset
      let files' := fsAppend files newGen copied
      let w' := w.write copied
      let r' : KvIndexRecord := ⟨newGen, w'.pos - r.length, r.length⟩
      match compactLoop rest files' newGen w' rdrs with
      | some (idx, files2, w2) => some ((k, r') :: idx, files2, w2)
      | none => none
    else none

/-- `KvStore::compact`: bump the generation, create the new segment with a
fresh writer and reader, rewrite every index entry through `compactLoop`,
flush, then drop readers and delete files of every generation below the new
one and reset `compactable`. -/
def KvStore.compact (s : KvStore) : Option KvStore :=
  let newGen := s.generation + 1
  let files0 := fsCreate s.files newGen
  let w0 := KvWriter.new (fsRead files0 newGen).length
  let rdrs0 := readersInsert s.readers newGen
  match compactLoop s.index files0 newGen w0 rdrs0 with
  | none => none
  | some (idx, files1, w1) =>
    let removable := rdrs0.filter (fun g => decide (g < newGen))
    let rdrs1 := rdrs0.filter (fun g => !decide (g < newGen))
    let files2 := files1.filter (fun p => !decide (p.1 ∈ removable))
    some ⟨newGen, idx, w1, rdrs1, files2, 0⟩

/-- `KvStore::set`: serialize `Set(key, value)` at the writer's current `pos`
(the actual bytes land at end of file because of `O_APPEND`), flush, upsert
the index record, account the outdated record's length, and compact when
`compactable > THRESHOLD`.  `none` models a panic inside compaction. -/
def KvStore.set (s : KvStore) (key value : String) : Option KvStore :=
  let bytes := encodeAction (.Set key value)
  let offset := s.writer.pos
  let files' := fsAppend s.files s.generation bytes
  let w' := s.writer.write bytes
  let length := w'.pos - offset
  let outdated := idxLookup s.index key
  let index' := idxInsert s.index key ⟨s.generation, offset, length⟩
  let comp' := s.compactable + (match outdated with | some o => o.length | none => 0)
  let s' : KvStore := ⟨s.generation, index', w', s.readers, files', comp'⟩
  if comp' > THRESHOLD then s'.compact else some s'

/-! ### Replay (`fn load`) and `KvStore::open` -/

/-- The body of `fn load`: iterate the streaming deserializer over the file,
recording for each `Set` the record `(generation, offset, length)` — where
`generation` is the function's argument — and accumulating stale bytes.
`fuel` bounds the recursion; it starts at `content.length + 1` and cannot run
out because every decoded command consumes at least one element (running out
is mapped to the same decode error). -/
def loadLoop :
    Nat → List (String × KvIndexRecord) → Nat → Nat → Nat → List Char →
      Except KvError (List (String × KvIndexRecord) × Nat)
  | _, index, _, _, compactable, [] => .ok (index, compactable)
  | 0, _, _, _, _, _ :: _ => .error .Serde
  | fuel + 1, index, generation, offset, compactable, c :: cs =>
    match decodeOne (c :: cs) with
    | none => .error .Serde
    | some (action, rest) =>
      let nextOffset := offset + ((c :: cs).length - rest.length)
      let length := nextOffset - offset
      match action with
      | .Set key _ =>
        let outdated := idxLookup index key
        let index' := idxInsert index key ⟨generation, offset, length⟩
        match outdated with
        | some o => loadLoop fuel index' generation nextOffset (compactable + o.length) rest
        | none => loadLoop fuel index' generation nextOffset compactable rest
      | .Remove key =>
        let outdated := idxLookup index key
        let index' := idxErase index key
        match outdated with
        | some o =>
          loadLoop fuel index' generation nextOffset (compactable + o.length + length) rest
        | none => loadLoop fuel index' generation nextOffset (compactable + length) rest

/-- `fn load(index, generation, reader)`: replay one segment from offset 0. -/
def loadFile (index : List (String × KvIndexRecord)) (generation : Nat)
    (content : List Char) : Except KvError (List (String × KvIndexRecord) × Nat) :=
  loadLoop (content.length + 1) index generation 0 0 content

/-- The replay loop of `KvStore::open` over the sorted generation list: for
each generation `g`, open a reader on its file and run `load` — with the
*active* generation (`open`'s local `generation`), not `g` — then insert the
reader. -/
def openLoop :
    List Nat → List (Nat × List Char) → Nat → List (String × KvIndexRecord) → List Nat → Nat →
      Except KvError (List (String × KvIndexRecord) × List Nat × Nat)
  | [], _, _, index, readers, compactable => .ok (index, readers, compactable)
  | g :: rest, files, generation, index, readers, compactable =>
    match loadFile index generation (fsRead files g) with
    | .error e => .error e
    | .ok (index', c) =>
      openLoop rest files generation index' (readersInsert readers g) (compactable + c)

/-- Insert into an ascending list, for `generations.sort()`. -/
def insertSorted (x : Nat) : List Nat → List Nat
  | [] => [x]
  | y :: ys => if x ≤ y then x :: y :: ys else y :: insertSorted x ys

/-- `active_generations`: the generation numbers sorted ascending. -/
def sortGens (l : List Nat) : List Nat := l.foldr insertSorted []

/-- `generations.last().unwrap_or(&0)`. -/
def lastD : List Nat → Nat → Nat
  | [], d => d
  | [x], _ => x
  | _ :: y :: t, d => lastD (y :: t) d

/-- `KvStore::open`, with the directory contents (generation ↦ file contents)
as input in place of the path.  The writer is opened (create+append) on the
active generation before the replay; if no generation exists, a reader is
opened on the freshly created `0.db` and the index is empty, otherwise every
generation is replayed in ascending order through `openLoop`. -/
def openDir (dir : List (Nat × List Char)) : Except KvError KvStore :=
  let gens := sortGens (dir.map Prod.fst)
  let generation := lastD gens 0
  let dir0 := fsCreate dir generation
  let writer := KvWriter.new (fsRead dir0 generation).length
  if gens = [] then
    .ok ⟨generation, [], writer, [0], dir0, 0⟩
  else
    match openLoop gens dir0 generation [] [] 0 with
    | .error e => .error e
    | .ok (index, readers, compactable) =>
      .ok ⟨generation, index, writer, readers, dir0, compactable⟩

/-! ### Concrete scenario values -/

/-- Wire form of `Set("a","1")`, 17 characters. -/
def recA : List Char := encodeAction (.Set "a" "1")

/-- Wire form of `Set("b","2")`, 17 characters. -/
def recB : List Char := encodeAction (.Set "b" "2")

/-- Wire form of `Remove("a")`, 14 characters. -/
def rmA : List Char := encodeAction (.Remove "a")

/-- The store produced by opening an empty directory. -/
def emptyStore : KvStore := ⟨0, [], ⟨0⟩, [0], [(0, [])], 0⟩

/-- The readers invariant: the active generation has a reader, and every
generation referenced by an index record has a reader.  The second conjunct
is what `KvStore::get` relies on at its
`.expect("No reader for generation")`. -/
def StoreInv (s : KvStore) : Prop :=
  s.generation ∈ s.readers ∧ ∀ p ∈ s.index, p.2.generation ∈ s.readers

end Kvs

deriving instance DecidableEq for Except

namespace Kvs

/-- The store after `open(empty)`, `set("a","1")`, `set("b","2")`. -/
def c1Before : KvStore :=
  ⟨0, [("a", ⟨0, 0, 17⟩), ("b", ⟨0, 17, 17⟩)], ⟨34⟩, [0], [(0, recA ++ recB)], 0⟩

/-- The store `c1Before.compact` actually produces. -/
def c1After : KvStore :=
  ⟨1, [("a", ⟨1, 17, 17⟩), ("b", ⟨1, 34, 17⟩)], ⟨51⟩, [1], [(1, recA ++ recB ++ recB)], 0⟩

/-- The store produced by opening a directory whose `0.db` already holds
`Set("a","1")`. -/
def c2Open : KvStore := ⟨0, [("a", ⟨0, 0, 17⟩)], ⟨0⟩, [0], [(0, recA)], 0⟩

/-- The store `c2Open.set "b" "2"` actually produces. -/
def c2AfterSet : KvStore :=
  ⟨0, [("a", ⟨0, 0, 17⟩), ("b", ⟨0, 0, 17⟩)], ⟨17⟩, [0], [(0, recA ++ recB)], 0⟩

/-- The store after `open(empty)` followed by `set("a","1")`. -/
def c5Set : KvStore := ⟨0, [("a", ⟨0, 0, 17⟩)], ⟨17⟩, [0], [(0, recA)], 0⟩

end Kvs

namespace Kvs

/-! ### Claim theorems: compaction, reopen, writer position, replay
generation, and stale accounting -/

/-- Claim C1: during compaction the store is supposed to copy exactly
`rec.length` bytes per index entry so that `get` is unchanged by compaction.
The code discards the `take` bound and copies from `rec.offset` to end of
file: after `set("a","1"); set("b","2")` the new segment holds 51 characters
instead of 17 + 17 = 34, and `get("a")` changes from `Some("1")` before
compaction to `Some("2")` after. -/
theorem compact_copies_to_end_of_file :
    (openDir []).toOption.bind (fun s => (s.set "a" "1").bind (fun s => s.set "b" "2")) =
      some c1Before ∧
    c1Before.index = [("a", ⟨0, 0, 17⟩), ("b", ⟨0, 17, 17⟩)] ∧
    c1Before.get "a" = some (.ok (some "1")) ∧
    c1Before.compact = some c1After ∧
    fsRead c1After.files 1 = recA ++ recB ++ recB ∧
    (fsRead c1After.files 1).length = 51 ∧
    recA.length + recB.length = 34 ∧
    c1After.get "a" = some (.ok (some "2")) ∧
    c1After.get "a" ≠ c1Before.get "a" := by
  refine ⟨by decide, by decide, by decide, by decide, by decide, by decide, by decide,
    by decide, by decide⟩

/-- Claim C2: read-your-writes is supposed to hold for every reachable store,
including one reopened on a non-empty segment.  Because the reopened writer's
`pos` is 0 while the appended bytes land at end of file, the record written
by `set("b","2")` is indexed at offset 0, and `get("b")` returns the value of
the pre-existing `Set("a","1")` record: `Some("1")`, not `Some("2")`. -/
theorem read_your_writes_fails_after_reopen :
    openDir [(0, recA)] = .ok c2Open ∧
    c2Open.writer.pos = 0 ∧
    (fsRead c2Open.files 0).length = 17 ∧
    c2Open.set "b" "2" = some c2AfterSet ∧
    idxLookup c2AfterSet.index "b" = some ⟨0, 0, 17⟩ ∧
    c2AfterSet.get "b" = some (.ok (some "1")) ∧
    c2AfterSet.get "b" ≠ some (.ok (some "2")) := by
  refine ⟨by decide, by decide, by decide, by decide, by decide, by decide, by decide⟩

/-- Claim C3: the writer opened on an existing segment file is supposed to
start at the file's size.  The source initialises `pos` from
`seek(SeekFrom::Current(0))` on a freshly opened append-mode handle, which is
0 whatever the file holds: opening on the 17-character segment `recA` yields
position 0, not 17.  The second half of the claim — each write advances the
position by exactly the number of bytes written — does hold. -/
theorem writer_initial_pos_zero :
    (KvWriter.new recA.length).pos = 0 ∧
    recA.length = 17 ∧
    (KvWriter.new recA.length).pos ≠ recA.length ∧
    (openDir [(0, recA)]).toOption.map (fun s => s.writer.pos) = some 0 ∧
    (∀ w bytes, (KvWriter.write w bytes).pos = w.pos + bytes.length) := by
  refine ⟨by decide, by decide, by decide, by decide, fun w bytes => rfl⟩

/-- Claim C4: each record stored while replaying a segment of generation `g`
is supposed to carry that `g`.  `open` passes its local `generation` — the
active (largest) generation — to `load` for every segment, so in a directory
with segments 0 and 1 the record decoded from segment 0 (`Set("a","1")`)
carries generation 1. -/
theorem open_replay_tags_records_with_active_generation :
    decodeOne recA = some (.Set "a" "1", []) ∧
    (openDir [(0, recA), (1, recB)]).toOption.map (fun s => s.index) =
      some [("a", ⟨1, 0, 17⟩), ("b", ⟨1, 0, 17⟩)] ∧
    (openDir [(0, recA), (1, recB)]).toOption.map (fun s => idxLookup s.index "a") =
      some (some ⟨1, 0, 17⟩) ∧
    (1 : Nat) ≠ 0 := by
  refine ⟨by decide, by decide, by decide, by decide⟩

/-- Claim C5: a successful `remove(k)` is supposed to add `prev_len + rm_len`
to the stale counter.  The source adds only the prior record's length: after
`set("a","1")` (17 characters) a `remove("a")` (14 characters) leaves
`compactable` at 17, not 17 + 14 = 31 — although replaying the very same log
through `load` accumulates 31. -/
theorem remove_omits_own_length_from_stale :
    openDir [] = .ok emptyStore ∧
    emptyStore.set "a" "1" = some c5Set ∧
    idxLookup c5Set.index "a" = some ⟨0, 0, 17⟩ ∧
    rmA.length = 14 ∧
    (c5Set.remove "a").1 = .ok () ∧
    fsRead (c5Set.remove "a").2.files 0 = recA ++ rmA ∧
    (c5Set.remove "a").2.compactable = 17 ∧
    (17 : Nat) ≠ 17 + 14 ∧
    loadFile [] 0 (recA ++ rmA) = .ok ([], 31) := by
  refine ⟨by decide, by decide, by decide, by decide, by decide, by decide, by decide,
    by decide, by decide⟩

end Kvs

namespace Kvs

/-! ### Association-list lemmas -/

theorem find?_filter_ne (l : List (String × KvIndexRecord)) (k : String) :
    (l.filter (fun p => !(p.1 == k))).find? (fun p => p.1 == k) = none := by
  rw [List.find?_eq_none]
  intro x hx
  have hpx := List.of_mem_filter hx
  simp only [Bool.not_eq_true', beq_eq_false_iff_ne, ne_eq] at hpx
  simpa using hpx

theorem idxLookup_insert_self (l : List (String × KvIndexRecord)) (k : String)
    (r : KvIndexRecord) : idxLookup (idxInsert l k r) k = some r := by
  unfold idxLookup idxInsert
  rw [List.find?_append, find?_filter_ne]
  simp [List.find?]

theorem idxLookup_erase_self (l : List (String × KvIndexRecord)) (k : String) :
    idxLookup (idxErase l k) k = none := by
  unfold idxLookup idxErase
  rw [find?_filter_ne]
  rfl

theorem mem_of_idxLookup {l : List (String × KvIndexRecord)} {k : String}
    {r : KvIndexRecord} (h : idxLookup l k = some r) : (k, r) ∈ l := by
  unfold idxLookup at h
  cases hf : l.find? (fun p => p.1 == k) with
  | none => rw [hf] at h; cases h
  | some p =>
    rw [hf] at h
    have hp : p ∈ l := List.mem_of_find?_eq_some hf
    have hk : p.1 = k := by
      have := List.find?_some hf
      simpa using this
    have hr : p.2 = r := by simpa using h
    have : p = (k, r) := by
      cases p
      simp only at hk hr
      rw [hk, hr]
    rwa [this] at hp

theorem idxLookup_isSome_iff (l : List (String × KvIndexRecord)) (k : String) :
    (idxLookup l k).isSome ↔ k ∈ l.map Prod.fst := by
  unfold idxLookup
  induction l with
  | nil => simp [List.find?]
  | cons p t ih =>
    by_cases h : p.1 = k
    · simp [List.find?, h]
    · simp only [List.find?, List.map_cons, List.mem_cons]
      have hb : (p.1 == k) = false := by simpa using h
      rw [hb]
      simp only [Option.map]
      constructor
      · intro hs
        exact Or.inr (ih.mp hs)
      · intro hs
        rcases hs with hs | hs
        · exact absurd hs.symm h
        · exact ih.mpr hs

theorem mem_idxInsert {l : List (String × KvIndexRecord)} {k : String}
    {r : KvIndexRecord} {p : String × KvIndexRecord} (h : p ∈ idxInsert l k r) :
    p ∈ l ∨ p = (k, r) := by
  unfold idxInsert at h
  rcases List.mem_append.mp h with h | h
  · exact Or.inl (List.mem_of_mem_filter h)
  · simp at h
    exact Or.inr h

theorem mem_idxErase {l : List (String × KvIndexRecord)} {k : String}
    {p : String × KvIndexRecord} (h : p ∈ idxErase l k) : p ∈ l :=
  List.mem_of_mem_filter h

/-! ### Claim theorems: error taxonomy of get and remove on absent keys -/

/-- Claim C7: for a key absent from the index, `get` succeeds with the empty
result while `remove` fails with `KeyNotFound`. -/
theorem get_missing_ok_remove_missing_err (s : KvStore) (k : String)
    (h : idxLookup s.index k = none) :
    s.get k = some (.ok none) ∧ (s.remove k).1 = .error .KeyNotFound := by
  constructor
  · unfold KvStore.get
    rw [h]
  · unfold KvStore.remove
    rw [h]

theorem get_missing_ok_remove_missing_err_witness :
    idxLookup emptyStore.index "a" = none ∧
    (emptyStore.get "a" = some (.ok none) ∧
      (emptyStore.remove "a").1 = .error .KeyNotFound) :=
  ⟨by decide, get_missing_ok_remove_missing_err emptyStore "a" (by decide)⟩

/-- Claim C9: `remove` of an absent key is atomic — it returns `KeyNotFound`
having changed nothing at all: the result state is the input state, so no
bytes were appended, and writer position, index, readers, active generation
and stale counter are all untouched (the membership check precedes any
write). -/
theorem remove_missing_is_noop (s : KvStore) (k : String)
    (h : idxLookup s.index k = none) :
    s.remove k = (.error .KeyNotFound, s) := by
  unfold KvStore.remove
  rw [h]

theorem remove_missing_is_noop_witness :
    idxLookup emptyStore.index "b" = none ∧
    emptyStore.remove "b" = (.error .KeyNotFound, emptyStore) :=
  ⟨by decide, remove_missing_is_noop emptyStore "b" (by decide)⟩

end Kvs

namespace Kvs

/-! ### Replay lemmas -/

theorem loadLoop_error_indep :
    ∀ (fuel : Nat) (rest : List Char) (i1 i2 : List (String × KvIndexRecord))
      (g1 g2 o1 o2 c1 c2 : Nat) (e : KvError),
      loadLoop fuel i1 g1 o1 c1 rest = .error e →
      loadLoop fuel i2 g2 o2 c2 rest = .error .Serde := by
  intro fuel
  induction fuel with
  | zero =>
    intro rest i1 i2 g1 g2 o1 o2 c1 c2 e h
    cases rest with
    | nil => simp [loadLoop] at h
    | cons c cs => simp [loadLoop]
  | succ n ih =>
    intro rest i1 i2 g1 g2 o1 o2 c1 c2 e h
    cases rest with
    | nil => simp [loadLoop] at h
    | cons c cs =>
      simp only [loadLoop] at h ⊢
      cases hd : decodeOne (c :: cs) with
      | none => simp [hd]
      | some ar =>
        obtain ⟨action, rest'⟩ := ar
        rw [hd] at h
        simp only at h ⊢
        cases action with
        | Set key value =>
          simp only at h ⊢
          cases h1 : idxLookup i1 key <;> cases h2 : idxLookup i2 key <;>
            rw [h1] at h <;> simp only at h ⊢ <;>
            exact ih rest' _ _ _ _ _ _ _ _ _ h
        | Remove key =>
          simp only at h ⊢
          cases h1 : idxLookup i1 key <;> cases h2 : idxLookup i2 key <;>
            rw [h1] at h <;> simp only at h ⊢ <;>
            exact ih rest' _ _ _ _ _ _ _ _ _ h

theorem openLoop_error_of_load_error :
    ∀ (gens : List Nat) (files : List (Nat × List Char)) (generation : Nat)
      (idx : List (String × KvIndexRecord)) (rdrs : List Nat) (comp : Nat)
      (g : Nat) (e : KvError),
      g ∈ gens → loadFile [] 0 (fsRead files g) = .error e →
      ∃ e', openLoop gens files generation idx rdrs comp = .error e' := by
  intro gens
  induction gens with
  | nil =>
    intro _ _ _ _ _ _ _ hg _
    cases hg
  | cons h t ih =>
    intro files generation idx rdrs comp g e hg hfail
    cases hl : loadFile idx generation (fsRead files h) with
    | error e2 =>
      refine ⟨e2, ?_⟩
      simp only [openLoop, hl]
    | ok res =>
      obtain ⟨i2, c2⟩ := res
      rcases List.mem_cons.mp hg with rfl | hgt
      · exfalso
        have := loadLoop_error_indep _ _ _ idx 0 generation 0 0 0 0 _ hfail
        rw [show loadLoop ((fsRead files g).length + 1) idx generation 0 0 (fsRead files g) =
          loadFile idx generation (fsRead files g) from rfl] at this
        rw [hl] at this
        cases this
      · obtain ⟨e', he'⟩ :=
          ih files generation i2 (readersInsert rdrs h) (comp + c2) g e hgt hfail
        refine ⟨e', ?_⟩
        simp only [openLoop, hl, he']

/-! ### Sorting and directory lemmas -/

theorem mem_insertSorted (x a : Nat) (l : List Nat) :
    a ∈ insertSorted x l ↔ a = x ∨ a ∈ l := by
  induction l with
  | nil => simp [insertSorted]
  | cons y ys ih =>
    unfold insertSorted
    by_cases h : x ≤ y
    · simp [h]
    · simp only [if_neg h, List.mem_cons, ih]
      tauto

theorem mem_sortGens (a : Nat) (l : List Nat) : a ∈ sortGens l ↔ a ∈ l := by
  induction l with
  | nil => simp [sortGens]
  | cons y ys ih =>
    unfold sortGens at ih ⊢
    simp only [List.foldr_cons, mem_insertSorted, List.mem_cons, ih]

theorem lastD_mem (l : List Nat) (d : Nat) (h : l ≠ []) : lastD l d ∈ l := by
  induction l with
  | nil => exact absurd rfl h
  | cons x t ih =>
    cases t with
    | nil => simp [lastD]
    | cons y u =>
      have := ih (by simp)
      simp only [lastD]
      exact List.mem_cons_of_mem x this

theorem find?_fst_isSome {α : Type} (l : List (Nat × α)) (g : Nat)
    (h : g ∈ l.map Prod.fst) : (l.find? (fun p => p.1 == g)).isSome := by
  induction l with
  | nil => cases h
  | cons p t ih =>
    rcases List.mem_cons.mp h with h | h
    · have : (p.1 == g) = true := by simpa using h.symm
      simp [List.find?, this]
    · by_cases hb : p.1 = g
      · simp [List.find?, hb]
      · have : (p.1 == g) = false := by simpa using hb
        simp only [List.find?, this]
        exact ih h

theorem fsCreate_of_mem (files : List (Nat × List Char)) (g : Nat)
    (h : g ∈ files.map Prod.fst) : fsCreate files g = files := by
  unfold fsCreate
  cases hf : files.find? (fun p => p.1 == g) with
  | none =>
    have := find?_fst_isSome files g h
    rw [hf] at this
    cases this
  | some p => rfl

theorem fsRead_of_mem_nodup {dir : List (Nat × List Char)} {g : Nat} {c : List Char}
    (hnodup : (dir.map Prod.fst).Nodup) (hmem : (g, c) ∈ dir) : fsRead dir g = c := by
  induction dir with
  | nil => cases hmem
  | cons p t ih =>
    rcases List.mem_cons.mp hmem with rfl | hmt
    · simp [fsRead, List.find?]
    · have hnd : (t.map Prod.fst).Nodup := (List.nodup_cons.mp hnodup).2
      have hne : p.1 ≠ g := by
        intro hcontra
        have hmem2 : g ∈ t.map Prod.fst := List.mem_map.mpr ⟨(g, c), hmt, rfl⟩
        have hnotin : p.1 ∉ t.map Prod.fst :=
          (List.nodup_cons.mp (by simpa using hnodup)).1
        rw [hcontra] at hnotin
        exact hnotin hmem2
      have hb : (p.1 == g) = false := by simpa using hne
      have := ih hnd hmt
      unfold fsRead at this ⊢
      simp only [List.find?, hb]
      exact this

/-! ### Claim theorem: decode failure aborts open -/

/-- Claim C6: if decoding any command of any segment fails during replay,
`open` returns an error and builds no store — `fn load` propagates the
deserializer's error through `?`, and `KvStore::open` propagates `load`'s.
The hypothesis `loadFile [] 0 c = .error e` states that replaying the
segment contents `c` hits a decode failure (by `loadLoop_error_indep` this
does not depend on the index, generation or counters in effect). -/
theorem decode_failure_aborts_open
    (dir : List (Nat × List Char)) (g : Nat) (c : List Char) (e : KvError)
    (hmem : (g, c) ∈ dir) (hnodup : (dir.map Prod.fst).Nodup)
    (hfail : loadFile [] 0 c = .error e) :
    ∃ e', openDir dir = .error e' := by
  have hkeys : g ∈ dir.map Prod.fst := List.mem_map.mpr ⟨(g, c), hmem, rfl⟩
  have hgens : g ∈ sortGens (dir.map Prod.fst) := (mem_sortGens _ _).mpr hkeys
  have hne : sortGens (dir.map Prod.fst) ≠ [] := by
    intro h0
    rw [h0] at hgens
    cases hgens
  have hgmem : lastD (sortGens (dir.map Prod.fst)) 0 ∈ sortGens (dir.map Prod.fst) :=
    lastD_mem _ _ hne
  have hgkeys : lastD (sortGens (dir.map Prod.fst)) 0 ∈ dir.map Prod.fst :=
    (mem_sortGens _ _).mp hgmem
  have hcreate : fsCreate dir (lastD (sortGens (dir.map Prod.fst)) 0) = dir :=
    fsCreate_of_mem _ _ hgkeys
  have hread : fsRead dir g = c := fsRead_of_mem_nodup hnodup hmem
  obtain ⟨e', he'⟩ := openLoop_error_of_load_error (sortGens (dir.map Prod.fst)) dir
    (lastD (sortGens (dir.map Prod.fst)) 0) [] [] 0 g e hgens (by rw [hread]; exact hfail)
  refine ⟨e', ?_⟩
  unfold openDir
  simp only [hcreate, if_neg hne, he']

theorem decode_failure_aborts_open_witness :
    ((0, ['x']) ∈ ([(0, ['x'])] : List (Nat × List Char)) ∧
      (([(0, ['x'])] : List (Nat × List Char)).map Prod.fst).Nodup ∧
      loadFile [] 0 ['x'] = .error .Serde) ∧
    ∃ e', openDir [(0, ['x'])] = .error e' :=
  ⟨⟨by decide, by decide, by decide⟩,
    decode_failure_aborts_open [(0, ['x'])] 0 ['x'] .Serde (by decide) (by decide) (by decide)⟩

end Kvs

namespace Kvs

/-! ### Compaction lemmas -/

theorem compactLoop_keys :
    ∀ (entries : List (String × KvIndexRecord)) (files : List (Nat × List Char))
      (g : Nat) (w : KvWriter) (rdrs : List Nat)
      (idx : List (String × KvIndexRecord)) (files2 : List (Nat × List Char))
      (w2 : KvWriter),
      compactLoop entries files g w rdrs = some (idx, files2, w2) →
      idx.map Prod.fst = entries.map Prod.fst := by
  intro entries
  induction entries with
  | nil =>
    intro files g w rdrs idx files2 w2 h
    simp only [compactLoop, Option.some.injEq, Prod.mk.injEq] at h
    rw [← h.1]
  | cons p t ih =>
    obtain ⟨k, r⟩ := p
    intro files g w rdrs idx files2 w2 h
    simp only [compactLoop] at h
    by_cases hg : r.generation ∈ rdrs
    · rw [if_pos hg] at h
      cases hrec : compactLoop t (fsAppend files g ((fsRead files r.generation).drop r.offset))
          g (w.write ((fsRead files r.generation).drop r.offset)) rdrs with
      | none => rw [hrec] at h; cases h
      | some out =>
        obtain ⟨idx', f', w'⟩ := out
        rw [hrec] at h
        simp only [Option.some.injEq, Prod.mk.injEq] at h
        rw [← h.1]
        simp only [List.map_cons]
        rw [ih _ _ _ _ _ _ _ hrec]
    · rw [if_neg hg] at h
      cases h

theorem compactLoop_total :
    ∀ (entries : List (String × KvIndexRecord)) (files : List (Nat × List Char))
      (g : Nat) (w : KvWriter) (rdrs : List Nat),
      (∀ p ∈ entries, p.2.generation ∈ rdrs) →
      ∃ idx files2 w2, compactLoop entries files g w rdrs = some (idx, files2, w2) ∧
        ∀ p ∈ idx, p.2.generation = g := by
  intro entries
  induction entries with
  | nil =>
    intro files g w rdrs _
    exact ⟨[], files, w, rfl, by simp⟩
  | cons p t ih =>
    obtain ⟨k, r⟩ := p
    intro files g w rdrs hmem
    have hg : r.generation ∈ rdrs := hmem (k, r) (List.mem_cons_self _ _)
    obtain ⟨idx, f2, w2, heq, hgens⟩ :=
      ih (fsAppend files g ((fsRead files r.generation).drop r.offset)) g
        (w.write ((fsRead files r.generation).drop r.offset)) rdrs
        (fun q hq => hmem q (List.mem_cons_of_mem _ hq))
    refine ⟨(k, ⟨g, (w.write ((fsRead files r.generation).drop r.offset)).pos - r.length,
      r.length⟩) :: idx, f2, w2, ?_, ?_⟩
    · simp only [compactLoop, if_pos hg, heq]
    · intro q hq
      rcases List.mem_cons.mp hq with rfl | hq
      · rfl
      · exact hgens q hq

theorem compact_keys (s s' : KvStore) (h : s.compact = some s') :
    s'.index.map Prod.fst = s.index.map Prod.fst := by
  simp only [KvStore.compact] at h
  cases hrec : compactLoop s.index (fsCreate s.files (s.generation + 1)) (s.generation + 1)
      (KvWriter.new (fsRead (fsCreate s.files (s.generation + 1)) (s.generation + 1)).length)
      (readersInsert s.readers (s.generation + 1)) with
  | none => rw [hrec] at h; cases h
  | some out =>
    obtain ⟨idx', f', w'⟩ := out
    rw [hrec] at h
    simp only [Option.some.injEq] at h
    rw [← h]
    exact compactLoop_keys _ _ _ _ _ _ _ _ hrec

/-! ### Claim theorem: remove hides -/

/-- Claim C8: after a successful `set(k, v)` the key is present in the index
(also when the `set` triggered compaction, which rewrites every entry but
drops none), so the following `remove(k)` succeeds; it erases the binding,
after which `get(k)` is `Ok(None)` and a second `remove(k)` fails with
`KeyNotFound`. -/
theorem set_then_remove_hides (s s1 : KvStore) (k v : String)
    (hset : s.set k v = some s1) :
    (s1.remove k).1 = .ok () ∧
    (s1.remove k).2.get k = some (.ok none) ∧
    ((s1.remove k).2.remove k).1 = .error .KeyNotFound := by
  have hk : k ∈ s1.index.map Prod.fst := by
    simp only [KvStore.set] at hset
    split at hset
    · -- the set triggered compaction; compaction preserves the key list
      have hkeys := compact_keys _ _ hset
      rw [hkeys]
      exact (idxLookup_isSome_iff _ _).mp (by rw [idxLookup_insert_self]; rfl)
    · cases hset
      exact (idxLookup_isSome_iff _ _).mp (by rw [idxLookup_insert_self]; rfl)
  obtain ⟨r, hr⟩ := Option.isSome_iff_exists.mp ((idxLookup_isSome_iff _ _).mpr hk)
  have hrm : s1.remove k =
      (.ok (), ⟨s1.generation, idxErase s1.index k,
        s1.writer.write (encodeAction (.Remove k)), s1.readers,
        fsAppend s1.files s1.generation (encodeAction (.Remove k)),
        s1.compactable + r.length⟩) := by
    unfold KvStore.remove
    rw [hr]
  rw [hrm]
  refine ⟨rfl, ?_, ?_⟩
  · unfold KvStore.get
    simp only
    rw [idxLookup_erase_self]
  · unfold KvStore.remove
    simp only
    rw [idxLookup_erase_self]

theorem set_then_remove_hides_witness :
    emptyStore.set "a" "1" = some c5Set ∧
    ((c5Set.remove "a").1 = .ok () ∧
      (c5Set.remove "a").2.get "a" = some (.ok none) ∧
      ((c5Set.remove "a").2.remove "a").1 = .error .KeyNotFound) :=
  ⟨by decide, set_then_remove_hides emptyStore c5Set "a" "1" (by decide)⟩

end Kvs

namespace Kvs

/-! ### Readers-invariant lemmas -/

theorem mem_readersInsert_self (l : List Nat) (g : Nat) : g ∈ readersInsert l g := by
  unfold readersInsert
  split
  · assumption
  · exact List.mem_cons_self _ _

theorem mem_readersInsert_of_mem {l : List Nat} {x : Nat} (g : Nat) (h : x ∈ l) :
    x ∈ readersInsert l g := by
  unfold readersInsert
  split
  · exact h
  · exact List.mem_cons_of_mem _ h

theorem loadLoop_records :
    ∀ (fuel : Nat) (rest : List Char) (idx : List (String × KvIndexRecord))
      (g off comp : Nat) (idx' : List (String × KvIndexRecord)) (comp' : Nat),
      loadLoop fuel idx g off comp rest = .ok (idx', comp') →
      (∀ p ∈ idx, p.2.generation = g) →
      ∀ p ∈ idx', p.2.generation = g := by
  intro fuel
  induction fuel with
  | zero =>
    intro rest idx g off comp idx' comp' h hidx
    cases rest with
    | nil =>
      simp only [loadLoop, Except.ok.injEq, Prod.mk.injEq] at h
      rw [← h.1]
      exact hidx
    | cons c cs => simp [loadLoop] at h
  | succ n ih =>
    intro rest idx g off comp idx' comp' h hidx
    cases rest with
    | nil =>
      simp only [loadLoop, Except.ok.injEq, Prod.mk.injEq] at h
      rw [← h.1]
      exact hidx
    | cons c cs =>
      simp only [loadLoop] at h
      cases hd : decodeOne (c :: cs) with
      | none => rw [hd] at h; simp at h
      | some ar =>
        obtain ⟨action, rest'⟩ := ar
        rw [hd] at h
        simp only at h
        cases action with
        | Set key value =>
          simp only at h
          cases h1 : idxLookup idx key <;> rw [h1] at h <;> simp only at h <;>
            refine ih rest' _ g _ _ _ _ h ?_ <;>
            intro p hp <;>
            rcases mem_idxInsert hp with hp | rfl <;>
            first
              | exact hidx p hp
              | rfl
        | Remove key =>
          simp only at h
          cases h1 : idxLookup idx key <;> rw [h1] at h <;> simp only at h <;>
            exact ih rest' _ g _ _ _ _ h (fun p hp => hidx p (mem_idxErase hp))

theorem openLoop_ok_inv :
    ∀ (gens : List Nat) (files : List (Nat × List Char)) (generation : Nat)
      (idx : List (String × KvIndexRecord)) (rdrs : List Nat) (comp : Nat)
      (idx' : List (String × KvIndexRecord)) (rdrs' : List Nat) (comp' : Nat),
      openLoop gens files generation idx rdrs comp = .ok (idx', rdrs', comp') →
      (∀ p ∈ idx, p.2.generation = generation) →
      (∀ p ∈ idx', p.2.generation = generation) ∧
      (∀ x, (x ∈ rdrs ∨ x ∈ gens) → x ∈ rdrs') := by
  intro gens
  induction gens with
  | nil =>
    intro files generation idx rdrs comp idx' rdrs' comp' h hidx
    simp only [openLoop, Except.ok.injEq, Prod.mk.injEq] at h
    obtain ⟨h1, h2, h3⟩ := h
    constructor
    · rw [← h1]; exact hidx
    · intro x hx
      rw [← h2]
      rcases hx with hx | hx
      · exact hx
      · cases hx
  | cons g0 t ih =>
    intro files generation idx rdrs comp idx' rdrs' comp' h hidx
    simp only [openLoop] at h
    cases hl : loadFile idx generation (fsRead files g0) with
    | error e => rw [hl] at h; simp at h
    | ok res =>
      obtain ⟨i2, c2⟩ := res
      rw [hl] at h
      simp only at h
      have hi2 : ∀ p ∈ i2, p.2.generation = generation :=
        loadLoop_records _ _ _ _ _ _ _ _ hl hidx
      obtain ⟨ha, hb⟩ := ih _ _ _ _ _ _ _ _ h hi2
      refine ⟨ha, ?_⟩
      intro x hx
      apply hb
      rcases hx with hx | hx
      · exact Or.inl (mem_readersInsert_of_mem _ hx)
      · rcases List.mem_cons.mp hx with rfl | hx
        · exact Or.inl (mem_readersInsert_self _ _)
        · exact Or.inr hx

theorem storeInv_open (dir : List (Nat × List Char)) (s : KvStore)
    (h : openDir dir = .ok s) : StoreInv s := by
  simp only [openDir] at h
  split at h
  · rename_i hnil
    rw [hnil] at h
    simp only [Except.ok.injEq] at h
    rw [← h]
    refine ⟨?_, ?_⟩
    · simp [lastD]
    · intro p hp
      simp at hp
  · rename_i hnil
    cases ho : openLoop (sortGens (dir.map Prod.fst))
        (fsCreate dir (lastD (sortGens (dir.map Prod.fst)) 0))
        (lastD (sortGens (dir.map Prod.fst)) 0) [] [] 0 with
    | error e => rw [ho] at h; simp at h
    | ok out =>
      obtain ⟨idx, rdrs, comp⟩ := out
      rw [ho] at h
      simp only [Except.ok.injEq] at h
      obtain ⟨hrec, hrdr⟩ :=
        openLoop_ok_inv _ _ _ _ _ _ _ _ _ ho (by intro p hp; cases hp)
      rw [← h]
      refine ⟨?_, ?_⟩
      · exact hrdr _ (Or.inr (lastD_mem _ _ hnil))
      · intro p hp
        rw [hrec p hp]
        exact hrdr _ (Or.inr (lastD_mem _ _ hnil))

theorem storeInv_compact (s : KvStore) (h : StoreInv s) :
    ∃ s', s.compact = some s' ∧ StoreInv s' := by
  obtain ⟨idx, f2, w2, heq, hgens⟩ :=
    compactLoop_total s.index (fsCreate s.files (s.generation + 1)) (s.generation + 1)
      (KvWriter.new (fsRead (fsCreate s.files (s.generation + 1)) (s.generation + 1)).length)
      (readersInsert s.readers (s.generation + 1))
      (fun p hp => mem_readersInsert_of_mem _ (h.2 p hp))
  simp only [KvStore.compact, heq]
  refine ⟨_, rfl, ?_, ?_⟩
  · exact List.mem_filter.mpr ⟨mem_readersInsert_self _ _, by simp⟩
  · intro p hp
    rw [hgens p hp]
    exact List.mem_filter.mpr ⟨mem_readersInsert_self _ _, by simp⟩

theorem storeInv_set (s : KvStore) (k v : String) (h : StoreInv s) :
    ∃ s', s.set k v = some s' ∧ StoreInv s' := by
  simp only [KvStore.set]
  have hinv' : StoreInv ⟨s.generation,
      idxInsert s.index k ⟨s.generation, s.writer.pos,
        (s.writer.write (encodeAction (.Set k v))).pos - s.writer.pos⟩,
      s.writer.write (encodeAction (.Set k v)), s.readers,
      fsAppend s.files s.generation (encodeAction (.Set k v)),
      s.compactable + (match idxLookup s.index k with | some o => o.length | none => 0)⟩ := by
    refine ⟨h.1, ?_⟩
    intro p hp
    rcases mem_idxInsert hp with hp | rfl
    · exact h.2 p hp
    · exact h.1
  by_cases hc :
      s.compactable + (match idxLookup s.index k with | some o => o.length | none => 0) >
        THRESHOLD
  · rw [if_pos hc]
    exact storeInv_compact _ hinv'
  · rw [if_neg hc]
    exact ⟨_, rfl, hinv'⟩

theorem storeInv_remove (s : KvStore) (k : String) (h : StoreInv s) :
    StoreInv (s.remove k).2 := by
  simp only [KvStore.remove]
  cases hl : idxLookup s.index k with
  | some r =>
    refine ⟨h.1, ?_⟩
    intro p hp
    exact h.2 p (mem_idxErase hp)
  | none => exact h

theorem storeInv_get (s : KvStore) (k : String) (h : StoreInv s) : s.get k ≠ none := by
  simp only [KvStore.get]
  cases hl : idxLookup s.index k with
  | none => simp
  | some r =>
    have hr : r.generation ∈ s.readers := h.2 (k, r) (mem_of_idxLookup hl)
    simp only
    rw [if_pos hr]
    cases hdec : decodeExact (((fsRead s.files r.generation).drop r.offset).take r.length) with
    | ok a => cases a <;> simp
    | error e => simp

/-! ### Claim theorem: the readers map covers every indexed generation -/

/-- Claim C10: `open` establishes — and `set`, `remove`, `get` and compaction
preserve — the invariant that the active generation and every generation
mentioned by an index record are keys of the readers map; consequently
`KvStore.get`'s reader lookup always succeeds, i.e. its
missing-reader panicking branch (`none` in this embedding) is unreachable,
and `set` and `compact` never panic either. -/
theorem readers_cover_index_generations :
    (∀ dir s, openDir dir = .ok s → StoreInv s) ∧
    (∀ s k v, StoreInv s → ∃ s', KvStore.set s k v = some s' ∧ StoreInv s') ∧
    (∀ s k, StoreInv s → StoreInv (KvStore.remove s k).2) ∧
    (∀ s, StoreInv s → ∃ s', KvStore.compact s = some s' ∧ StoreInv s') ∧
    (∀ s k, StoreInv s → KvStore.get s k ≠ none) :=
  ⟨storeInv_open, storeInv_set, storeInv_remove, storeInv_compact, storeInv_get⟩

theorem readers_cover_index_generations_witness :
    StoreInv emptyStore ∧ KvStore.get emptyStore "a" ≠ none :=
  ⟨⟨by decide, by intro p hp; simp [emptyStore] at hp⟩,
    readers_cover_index_generations.2.2.2.2 emptyStore "a"
      ⟨by decide, by intro p hp; simp [emptyStore] at hp⟩⟩

end Kvs
